import Mathlib

/-!
# A verification model of `phonetic-ts` (`src/index.ts`)

This file gives a shallow embedding, in Lean 4, of the word generator in
`src/index.ts` of the `phonetic-ts` package, and proves properties of that
embedding.

Modelling conventions:
* JavaScript numbers that are always non-negative integers in this program
  (the `numeric` state, derivatives, table indices) are modelled as `Nat`;
  user-supplied option integers are modelled as `Int`.  All arithmetic the
  program performs stays far below 2^53, so ordinary integer arithmetic is
  exact.
* JavaScript strings are Lean `String`s; the bytes the digest consumes are
  the UTF-8 encoding of the string (which is what the `ts-md5` dependency's
  `appendStr` produces).
* The `ts-md5` dependency is outside this repository; per the design
  document it is the injected 128-bit digest primitive with MD5 semantics,
  so MD5 itself is defined here from its standard specification.
* The mutable `wordObj` of the source is modelled as an explicit state
  value (`WordState`).  Its `opts` member is read-only for the whole run,
  so it is passed as a separate parameter alongside the mutable state; the
  mutation of `numeric` inside `getNextPhonetic` is modelled by returning
  the updated state together with the chosen fragment.
* The `while` loops of the source (`getDerivative`, the syllable loop in
  `generate`) are modelled with an explicit fuel argument so that every
  definition is structurally recursive and kernel-evaluable; a loop that
  does not terminate is `none` for every fuel.
-/

/-! ## Bytes, words and hex -/

/-- 2^32, the modulus of all 32-bit word arithmetic in the digest. -/
def MOD32 : Nat := 4294967296

/-- The four little-endian bytes of a 32-bit word. -/
def wordBytesLE (w : Nat) : List Nat :=
  [w % 256, w / 256 % 256, w / 65536 % 256, w / 16777216 % 256]

/-- `Buffer.readUInt32LE`: the little-endian 32-bit word at byte offset `i`
of a byte list (out-of-range bytes read as 0, which never happens on the
16-byte digests this program reads). -/
def readUInt32LE (l : List Nat) (i : Nat) : Nat :=
  l.getD i 0 + 256 * l.getD (i + 1) 0 + 65536 * l.getD (i + 2) 0 +
    16777216 * l.getD (i + 3) 0

/-- The lower-case hex digit for a value below 16. -/
def hexDigit (n : Nat) : Char :=
  if n < 10 then Char.ofNat (48 + n) else Char.ofNat (87 + n)

/-- The numeric value of a hex digit (`Buffer.from(·, 'hex')` accepts both
cases; other characters never occur in this program's hex strings). -/
def hexVal (c : Char) : Nat :=
  if 48 ≤ c.toNat ∧ c.toNat ≤ 57 then c.toNat - 48
  else if 97 ≤ c.toNat ∧ c.toNat ≤ 102 then c.toNat - 87
  else if 65 ≤ c.toNat ∧ c.toNat ≤ 70 then c.toNat - 55
  else 0

/-- Lower-case hex rendering of a byte list, as `ts-md5`'s `end()` returns
for the digest. -/
def bytesToHex (l : List Nat) : List Char :=
  l.flatMap (fun b => [hexDigit (b / 16), hexDigit (b % 16)])

/-- `Buffer.from(hex, 'hex')`: parse consecutive pairs of hex digits back
into bytes. -/
def hexToBytes : List Char → List Nat
  | c1 :: c2 :: rest => (hexVal c1 * 16 + hexVal c2) :: hexToBytes rest
  | _ => []

/-- UTF-8 encoding of a single scalar value. -/
def utf8Bytes (c : Char) : List Nat :=
  let n := c.toNat
  if n < 128 then [n]
  else if n < 2048 then [192 + n / 64, 128 + n % 64]
  else if n < 65536 then [224 + n / 4096, 128 + n / 64 % 64, 128 + n % 64]
  else [240 + n / 262144, 128 + n / 4096 % 64, 128 + n / 64 % 64, 128 + n % 64]

/-- UTF-8 bytes of a string, the byte stream `ts-md5`'s `appendStr` hashes. -/
def strBytes (s : String) : List Nat :=
  s.data.foldr (fun c acc => utf8Bytes c ++ acc) []

/-! ## MD5

Modelled from the spec: the design document treats the digest as an external
collaborator — "a general-purpose cryptographic hash primitive (treated as an
injected function: `hash(bytes) -> 16-byte digest`, semantics of MD5)"; the
`ts-md5` package that realises it is not part of this repository, so the MD5
algorithm (RFC 1321) is defined here directly. -/

/-- The 64 MD5 round constants `K[i] = floor(2^32 * |sin(i+1)|)`. -/
def md5K : List Nat :=
  [3614090360, 3905402710, 606105819, 3250441966,
   4118548399, 1200080426, 2821735955, 4249261313,
   1770035416, 2336552879, 4294925233, 2304563134,
   1804603682, 4254626195, 2792965006, 1236535329,
   4129170786, 3225465664, 643717713, 3921069994,
   3593408605, 38016083, 3634488961, 3889429448,
   568446438, 3275163606, 4107603335, 1163531501,
   2850285829, 4243563512, 1735328473, 2368359562,
   4294588738, 2272392833, 1839030562, 4259657740,
   2763975236, 1272893353, 4139469664, 3200236656,
   681279174, 3936430074, 3572445317, 76029189,
   3654602809, 3873151461, 530742520, 3299628645,
   4096336452, 1126891415, 2878612391, 4237533241,
   1700485571, 2399980690, 4293915773, 2240044497,
   1873313359, 4264355552, 2734768916, 1309151649,
   4149444226, 3174756917, 718787259, 3951481745]

/-- The 64 MD5 per-round left-rotation amounts. -/
def md5S : List Nat :=
  [7, 12, 17, 22, 7, 12, 17, 22, 7, 12, 17, 22, 7, 12, 17, 22,
   5, 9, 14, 20, 5, 9, 14, 20, 5, 9, 14, 20, 5, 9, 14, 20,
   4, 11, 16, 23, 4, 11, 16, 23, 4, 11, 16, 23, 4, 11, 16, 23,
   6, 10, 15, 21, 6, 10, 15, 21, 6, 10, 15, 21, 6, 10, 15, 21]

/-- Left-rotation of a 32-bit word (valid for `x < 2^32`, `s ≤ 32`). -/
def rotl32 (x s : Nat) : Nat :=
  x * 2 ^ s % MOD32 + x / 2 ^ (32 - s)

/-- Bitwise complement of a 32-bit word. -/
def not32 (x : Nat) : Nat := 4294967295 - x

/-- One MD5 round: update state `(a, b, c, d)` with round index `i` and
message words `M`. -/
def md5Round (M : List Nat) (st : Nat × Nat × Nat × Nat) (i : Nat) :
    Nat × Nat × Nat × Nat :=
  let a := st.1
  let b := st.2.1
  let c := st.2.2.1
  let d := st.2.2.2
  let fg : Nat × Nat :=
    if i < 16 then ((b &&& c) ||| (not32 b &&& d), i)
    else if i < 32 then ((d &&& b) ||| (not32 d &&& c), (5 * i + 1) % 16)
    else if i < 48 then (b ^^^ c ^^^ d, (3 * i + 5) % 16)
    else (c ^^^ (b ||| not32 d), 7 * i % 16)
  let tmp := (a + fg.1 + md5K.getD i 0 + M.getD fg.2 0) % MOD32
  (d, (b + rotl32 tmp (md5S.getD i 0)) % MOD32, b, c)

/-- The 16 little-endian 32-bit message words of a 64-byte block. -/
def blockWords (blk : List Nat) : List Nat :=
  (List.range 16).map (fun j => readUInt32LE blk (4 * j))

/-- Process one 64-byte block into the running MD5 state. -/
def md5Block (st : Nat × Nat × Nat × Nat) (blk : List Nat) :
    Nat × Nat × Nat × Nat :=
  let M := blockWords blk
  let r := (List.range 64).foldl (md5Round M) st
  ((st.1 + r.1) % MOD32, (st.2.1 + r.2.1) % MOD32,
   (st.2.2.1 + r.2.2.1) % MOD32, (st.2.2.2 + r.2.2.2) % MOD32)

/-- MD5 padding: a `0x80` byte, zeros to 56 mod 64, then the bit length as
a 64-bit little-endian quantity. -/
def md5Pad (msg : List Nat) : List Nat :=
  let len := msg.length
  let zeros := (120 - (len + 1) % 64) % 64
  msg ++ 128 :: List.replicate zeros 0 ++
    (List.range 8).map (fun i => len * 8 / 2 ^ (8 * i) % 256)

/-- Split a list into 64-byte chunks (`fuel` bounds the recursion; it is
always called with `fuel = l.length`, which suffices). -/
def chunks64 : Nat → List Nat → List (List Nat)
  | 0, _ => []
  | _, [] => []
  | fuel + 1, l => l.take 64 :: chunks64 fuel (l.drop 64)

/-- The MD5 digest of a byte list, as its 16 bytes in emission order. -/
def md5 (msg : List Nat) : List Nat :=
  let padded := md5Pad msg
  let st := (chunks64 padded.length padded).foldl md5Block
    (1732584193, 4023233417, 2562383102, 271733878)
  wordBytesLE st.1 ++ wordBytesLE st.2.1 ++ wordBytesLE st.2.2.1 ++
    wordBytesLE st.2.2.2

/-! ## The numeric hash (`getNumericHash`, src/index.ts lines 314–323)

The source appends `data + '-Phonetic'` to an `Md5` object, takes the hex
rendering `end()` returns, parses it back into bytes with
`Buffer.from(hex, 'hex')`, and sums the words `buf.readUInt32LE(i)` for
`i = 0, 4, 8, 12`.  Both call sites pass a string (`generate` passes the
seed; `getNextPhonetic` passes `numeric + word`, a number-to-string
coercion followed by concatenation), so the model takes a `String`. -/

/-- `getNumericHash` (src/index.ts 314–323). -/
def getNumericHash (data : String) : Nat :=
  let hex := bytesToHex (md5 (strBytes (data ++ "-Phonetic")))
  let buf := hexToBytes hex
  List.foldl (fun acc i => acc + readUInt32LE buf i) 0 [0, 4, 8, 12]

/-- The hash as §4.1 of the design document words it: sum the four 32-bit
little-endian words at byte offsets 0, 4, 8, 12 of the 16-byte digest of
the input concatenated with the salt `"-Phonetic"`.  Stated separately from
`getNumericHash` (which round-trips the digest through hex as the source
does) so the two can be compared. -/
def specNumericHash (data : String) : Nat :=
  let digest := md5 (strBytes (data ++ "-Phonetic"))
  readUInt32LE digest 0 + readUInt32LE digest 4 + readUInt32LE digest 8 +
    readUInt32LE digest 12

/-! ## The phonetic tables (src/index.ts lines 30–149) -/

/-- `PHONETIC_PRE` (src/index.ts 30–78). -/
def PHONETIC_PRE : List String :=
  ["b", "c", "d", "f", "g", "h", "j", "k", "l", "m", "n", "p", "qu", "r",
   "s", "t",
   "bl", "ch", "cl", "cr", "dr", "fl", "fr", "gl", "gr", "kl", "kr", "ph",
   "pr", "pl", "sc", "sh", "sl", "sn", "sr", "st", "str", "sw", "th", "tr",
   "br", "v", "w", "y", "z"]

/-- `PHONETIC_PRE_SIMPLE_LENGTH` (src/index.ts 84). -/
def PHONETIC_PRE_SIMPLE_LENGTH : Nat := 16

/-- `PHONETIC_MID` (src/index.ts 90–103). -/
def PHONETIC_MID : List String :=
  ["a", "e", "i", "o", "u", "ee", "ie", "oo", "ou", "ue"]

/-- `PHONETIC_MID_SIMPLE_LENGTH` (src/index.ts 109). -/
def PHONETIC_MID_SIMPLE_LENGTH : Nat := 5

/-- `PHONETIC_POST` (src/index.ts 115–143). -/
def PHONETIC_POST : List String :=
  ["b", "d", "f", "g", "k", "l", "m", "n", "p", "r", "s", "t", "y",
   "ch", "ck", "ln", "nk", "ng", "rn", "sh", "sk", "st", "th", "x", "z"]

/-- `PHONETIC_POST_SIMPLE_LENGTH` (src/index.ts 149). -/
def PHONETIC_POST_SIMPLE_LENGTH : Nat := 13

/-! ## Options (src/index.ts lines 10–16 and 260–275) -/

/-- The `PhoneticOptions` interface (src/index.ts 10–16): every field
optional. -/
structure PhoneticOptions where
  syllables : Option Int := none
  seed : Option String := none
  phoneticSimplicity : Option Int := none
  compoundSimplicity : Option Int := none
  capFirst : Option Bool := none
deriving DecidableEq, Repr

/-- The options object `getOptions` returns: every field present. -/
structure ResolvedOptions where
  syllables : Int
  seed : String
  phoneticSimplicity : Int
  compoundSimplicity : Int
  capFirst : Bool
deriving DecidableEq, Repr

/-- JavaScript `v || d` for an optional integer: the default when the value
is absent or `0` (the only falsy integer this program can meet). -/
def jsOrInt (v : Option Int) (d : Int) : Int :=
  match v with
  | none => d
  | some n => if n = 0 then d else n

/-- JavaScript `v || d` for an integer already known to be present. -/
def jsOrInt' (v d : Int) : Int := if v = 0 then d else v

/-- `getOptions` (src/index.ts 260–275).  When no seed is supplied — and
also when the supplied seed is the empty string, which is falsy — the
source uses `randomBytes(16).toString('base64')`; that externally sourced
random seed string is the `entropySeed` parameter. -/
def getOptions (entropySeed : String) (overrides : PhoneticOptions) :
    ResolvedOptions :=
  { syllables := jsOrInt overrides.syllables 3
    seed := match overrides.seed with
      | none => entropySeed
      | some s => if s = "" then entropySeed else s
    phoneticSimplicity := match overrides.phoneticSimplicity with
      | none => 5
      | some v => if v = 0 then 5 else max v 1
    compoundSimplicity := match overrides.compoundSimplicity with
      | none => 5
      | some v => if v = 0 then 5 else max v 1
    capFirst := overrides.capFirst.getD true }

/-! ## The word state (src/index.ts lines 18–24)

The source's `PhoneticWordObject` couples the mutable generation state with
the read-only resolved options.  The options never change once `generate`
has built the object, so the model passes them as a separate parameter and
keeps only the mutable part in the state. -/

/-- The mutable part of the source's `PhoneticWordObject`. -/
structure WordState where
  numeric : Nat
  lastSkippedPre : Bool
  lastSkippedPost : Bool
  word : String
deriving DecidableEq, Repr

/-! ## Derivative (`getDerivative`, src/index.ts lines 229–236) -/

/-- The loop of `getDerivative`: while `num ≠ 0`, add `num % 7` into the
accumulator and divide `num` by 7.  `fuel` bounds the iteration count; the
loop runs at most `⌊log₇ num⌋ + 1 ≤ num` times, so `fuel = num` is always
enough. -/
def derivLoop : Nat → Nat → Nat → Nat
  | 0, _, acc => acc
  | fuel + 1, num, acc =>
    if num = 0 then acc else derivLoop fuel (num / 7) (acc + num % 7)

/-- `getDerivative` (src/index.ts 229–236), starting the accumulator at 1. -/
def getDerivative (num : Nat) : Nat := derivLoop num num 1

/-! ## Fragment selection (`getNextPhonetic`, src/index.ts lines 292–305) -/

/-- The table index `getNextPhonetic` reads: `numeric % cap` where `cap` is
the simple boundary when the draw is simple (or forced simple) and the full
table length otherwise. -/
def nextPhoneticIndex (phoneticSet : List String) (simpleCap : Nat)
    (opts : ResolvedOptions) (st : WordState) (forceSimple : Bool) : Nat :=
  let deriv := getDerivative st.numeric
  let simple : Bool :=
    decide (((st.numeric : Int) + deriv) %
      jsOrInt' opts.phoneticSimplicity 5 > 0)
  let cap := if simple || forceSimple then simpleCap else phoneticSet.length
  st.numeric % cap

/-- `getNextPhonetic` (src/index.ts 292–305): pick the fragment at
`numeric % cap`, then advance `numeric` to
`getNumericHash(numeric + word)` — with `word` as it stands **now**, before
the caller appends the returned fragment.  A JavaScript out-of-range index
would read `undefined` and append the text `"undefined"`; the model makes
that branch explicit via `getD`. -/
def getNextPhonetic (phoneticSet : List String) (simpleCap : Nat)
    (opts : ResolvedOptions) (st : WordState) (forceSimple : Bool) :
    String × WordState :=
  (phoneticSet.getD (nextPhoneticIndex phoneticSet simpleCap opts st
      forceSimple) "undefined",
   { st with numeric := getNumericHash (toString st.numeric ++ st.word) })

/-! ## Syllable builder (`addSyllable`, src/index.ts lines 179–208) -/

/-- `addSyllable` (src/index.ts 179–208).  In the source each
`wordObj.word += getNextPhonetic(...)` first reads the old word, then runs
`getNextPhonetic` (which rehashes `numeric` from that old word), then
appends the returned fragment; the model mirrors that order.  The source
reads `compoundSimplicity` through `?? 5`, which only fires when the field
is absent; resolved options always carry it. -/
def addSyllable (opts : ResolvedOptions) (st : WordState) : WordState :=
  let deriv := getDerivative st.numeric
  let compound : Bool := decide ((deriv : Int) % opts.compoundSimplicity = 0)
  let first : Bool := st.word == ""
  let preOnFirst : Bool := decide (deriv % 6 > 0)
  let st1 :=
    if (first && preOnFirst) || st.lastSkippedPost || compound then
      let pr := getNextPhonetic PHONETIC_PRE PHONETIC_PRE_SIMPLE_LENGTH
        opts st false
      { pr.2 with word := pr.2.word ++ pr.1, lastSkippedPre := false }
    else { st with lastSkippedPre := true }
  let st2 :=
    let pr := getNextPhonetic PHONETIC_MID PHONETIC_MID_SIMPLE_LENGTH
      opts st1 (first && st1.lastSkippedPre)
    { pr.2 with word := pr.2.word ++ pr.1 }
  if st2.lastSkippedPre || compound then
    let pr := getNextPhonetic PHONETIC_POST PHONETIC_POST_SIMPLE_LENGTH
      opts st2 false
    { pr.2 with word := pr.2.word ++ pr.1, lastSkippedPost := false }
  else { st2 with lastSkippedPost := true }

/-! ## Post-processing (src/index.ts lines 159–168, 216–218, 337–350)

`postProcess` runs `word.replace(new RegExp(pattern), replacement)` once
per entry of `REPLACEMENTS`, in the object's insertion order; a non-global
`replace` rewrites only the leftmost match.  Each of the eight fixed
patterns is modelled by a dedicated function on character lists that scans
left to right and rewrites the first match it finds. -/

/-- `quu → que`: rewrite the first occurrence of `quu`. -/
def replQuu : List Char → List Char
  | 'q' :: 'u' :: 'u' :: rest => 'q' :: 'u' :: 'e' :: rest
  | c :: rest => c :: replQuu rest
  | [] => []

/-- Vowel test for the class `[aeiou]`. -/
def isVowel (c : Char) : Bool :=
  c == 'a' || c == 'e' || c == 'i' || c == 'o' || c == 'u'

/-- `qu([aeiou]){2} → qu$1`: a repeated capture group holds its last
iteration, so the two vowels after `qu` collapse to the second one. -/
def replQuVowels : List Char → List Char
  | 'q' :: 'u' :: v1 :: v2 :: rest =>
    if isVowel v1 && isVowel v2 then 'q' :: 'u' :: v2 :: rest
    else 'q' :: replQuVowels ('u' :: v1 :: v2 :: rest)
  | c :: rest => c :: replQuVowels rest
  | [] => []

/-- `[iu]y → ey`. -/
def replIUy : List Char → List Char
  | c :: 'y' :: rest =>
    if c == 'i' || c == 'u' then 'e' :: 'y' :: rest
    else c :: replIUy ('y' :: rest)
  | c :: rest => c :: replIUy rest
  | [] => []

/-- `eye → ye`. -/
def replEye : List Char → List Char
  | 'e' :: 'y' :: 'e' :: rest => 'y' :: 'e' :: rest
  | c :: rest => c :: replEye rest
  | [] => []

/-- `(.)ye$ → $1y`: the match must end at the end of the string, so the
only candidate position is the final three characters. -/
def replYeEnd : List Char → List Char
  | [c, 'y', 'e'] => [c, 'y']
  | c :: rest => c :: replYeEnd rest
  | [] => []

/-- The `e`-alternative of `(^|e)cie(?!$) → $1cei`, scanned at every
position: `ecie` not at the very end becomes `ecei`. -/
def replCieAfterE : List Char → List Char
  | 'e' :: 'c' :: 'i' :: 'e' :: rest =>
    if rest.isEmpty then 'e' :: replCieAfterE ('c' :: 'i' :: 'e' :: rest)
    else 'e' :: 'c' :: 'e' :: 'i' :: rest
  | c :: rest => c :: replCieAfterE rest
  | [] => []

/-- `(^|e)cie(?!$) → $1cei`: the `^`-alternative fires only when the word
starts with `cie` and does not end there; otherwise scan for the
`e`-alternative (which also covers a leading `ecie`). -/
def replCie (l : List Char) : List Char :=
  match l with
  | 'c' :: 'i' :: 'e' :: rest =>
    if rest.isEmpty then replCieAfterE l else 'c' :: 'e' :: 'i' :: rest
  | _ => replCieAfterE l

/-- `([vz])$ → $1e`: a final `v` or `z` gains an `e`. -/
def replVZEnd : List Char → List Char
  | [c] => if c == 'v' || c == 'z' then [c, 'e'] else [c]
  | c :: rest => c :: replVZEnd rest
  | [] => []

/-- `[iu]w → ow`: the matched two characters are replaced by `ow`. -/
def replIUw : List Char → List Char
  | c :: 'w' :: rest =>
    if c == 'i' || c == 'u' then 'o' :: 'w' :: rest
    else c :: replIUw ('w' :: rest)
  | c :: rest => c :: replIUw rest
  | [] => []

/-- `REPLACEMENTS` (src/index.ts 159–168): the eight first-match rewrites,
in the object's insertion order. -/
def REPLACEMENTS : List (List Char → List Char) :=
  [replQuu, replQuVowels, replIUy, replEye, replYeEnd, replCie, replVZEnd,
   replIUw]

/-- `capFirst` (src/index.ts 216–218): uppercase the first character, keep
the rest; the empty string maps to itself. -/
def capFirstStr (s : String) : String :=
  match s.data with
  | [] => ""
  | c :: cs => String.mk (c.toUpper :: cs)

/-- `postProcess` (src/index.ts 337–350): run the eight replacements in
order over the word, then capitalize iff the resolved `capFirst` is set. -/
def postProcess (opts : ResolvedOptions) (word : String) : String :=
  let processed := String.mk (REPLACEMENTS.foldl (fun l f => f l) word.data)
  if opts.capFirst then capFirstStr processed else processed

/-! ## The generator (`phonetic.generate`, src/index.ts lines 367–379) -/

/-- The syllable loop `while (syllables--) addSyllable(wordObj)`, with an
explicit fuel: the condition is JavaScript truthiness (`counter ≠ 0`); when
the fuel runs out with the condition still true the loop has not
terminated, which the model records as `none`.  For a non-negative counter
`s`, fuel `s` is exact; for a negative counter no fuel ever suffices. -/
def genLoop (opts : ResolvedOptions) : Nat → Int → WordState →
    Option WordState
  | 0, s, st => if s = 0 then some st else none
  | fuel + 1, s, st =>
    if s = 0 then some st else genLoop opts fuel (s - 1) (addSyllable opts st)

/-- The initial word state `generate` builds: `numeric` seeded from the
resolved seed, both skip flags clear, the empty word. -/
def initWordState (opts : ResolvedOptions) : WordState :=
  { numeric := getNumericHash opts.seed
    lastSkippedPre := false
    lastSkippedPost := false
    word := "" }

/-- The body of `generate` after option resolution: read the syllable
counter through `options.syllables || 3` as the source does, run the loop,
post-process the word of the final state. -/
def generateResolved (fuel : Nat) (opts : ResolvedOptions) : Option String :=
  (genLoop opts fuel (jsOrInt' opts.syllables 3) (initWordState opts)).map
    (fun st => postProcess opts st.word)

/-- The raw word as accumulated by the syllable loop, before
post-processing. -/
def rawWordResolved (fuel : Nat) (opts : ResolvedOptions) : Option String :=
  (genLoop opts fuel (jsOrInt' opts.syllables 3) (initWordState opts)).map
    (fun st => st.word)

/-- `phonetic.generate` with an explicit fuel for the syllable loop. -/
def generateWith (fuel : Nat) (entropySeed : String)
    (options : PhoneticOptions) : Option String :=
  generateResolved fuel (getOptions entropySeed options)

/-- `phonetic.generate` (src/index.ts 367–379).  The loop needs exactly
`syllables` iterations when the counter is non-negative, so that is the
fuel supplied; a negative counter makes the source's loop run forever, and
this model then returns `none` (see `genLoop`). -/
def generate (entropySeed : String) (options : PhoneticOptions) :
    Option String :=
  let opts := getOptions entropySeed options
  generateResolved (jsOrInt' opts.syllables 3).toNat opts

/-- The raw (pre-replacement) word of a `generate` run. -/
def rawWord (entropySeed : String) (options : PhoneticOptions) :
    Option String :=
  let opts := getOptions entropySeed options
  rawWordResolved (jsOrInt' opts.syllables 3).toNat opts

/-! ## Raw words are concatenations of table fragments -/

/-- A string that is a concatenation (possibly empty) of entries drawn
verbatim from the three phonetic tables. -/
inductive FragConcat : String → Prop
  | nil : FragConcat ""
  | snoc (w f : String) : FragConcat w →
      (f ∈ PHONETIC_PRE ∨ f ∈ PHONETIC_MID ∨ f ∈ PHONETIC_POST) →
      FragConcat (w ++ f)

/-! ## Helper lemmas -/

set_option maxRecDepth 4096

/-- A byte below 256 survives the round trip through its two hex digits. -/
theorem hexVal_hexDigit (b : Nat) (hb : b < 256) :
    hexVal (hexDigit (b / 16)) * 16 + hexVal (hexDigit (b % 16)) = b := by
  revert hb
  revert b
  decide

/-- Parsing the hex rendering of a byte list recovers the bytes, provided
every byte is below 256. -/
theorem hexToBytes_bytesToHex (l : List Nat) (hl : ∀ b ∈ l, b < 256) :
    hexToBytes (bytesToHex l) = l := by
  induction l with
  | nil => rfl
  | cons b rest ih =>
    have hb : b < 256 := hl b (List.mem_cons_self b rest)
    have hrest : ∀ x ∈ rest, x < 256 := fun x hx => hl x (List.mem_cons_of_mem b hx)
    simp only [bytesToHex, List.flatMap_cons] at *
    show hexToBytes (hexDigit (b / 16) :: hexDigit (b % 16) :: rest.flatMap _) = b :: rest
    rw [hexToBytes, hexVal_hexDigit b hb]
    exact congrArg (b :: ·) (ih hrest)

/-- Every byte of a little-endian word rendering is below 256. -/
theorem wordBytesLE_lt (w : Nat) : ∀ b ∈ wordBytesLE w, b < 256 := by
  intro b hb
  simp only [wordBytesLE, List.mem_cons, List.not_mem_nil, or_false] at hb
  rcases hb with h | h | h | h <;> exact h ▸ Nat.mod_lt _ (by decide)

/-- Elementwise bounds carry across an append. -/
theorem append_bytes_lt (l1 l2 : List Nat) (h1 : ∀ b ∈ l1, b < 256)
    (h2 : ∀ b ∈ l2, b < 256) : ∀ b ∈ l1 ++ l2, b < 256 := by
  intro b hb
  rcases List.mem_append.1 hb with h | h
  · exact h1 b h
  · exact h2 b h

/-- Every byte of an MD5 digest is below 256. -/
theorem md5_bytes_lt (msg : List Nat) : ∀ b ∈ md5 msg, b < 256 :=
  append_bytes_lt _ _
    (append_bytes_lt _ _
      (append_bytes_lt _ _ (wordBytesLE_lt _) (wordBytesLE_lt _))
      (wordBytesLE_lt _))
    (wordBytesLE_lt _)

/-- An MD5 digest is exactly 16 bytes. -/
theorem md5_length (msg : List Nat) : (md5 msg).length = 16 := by
  simp [md5, wordBytesLE]

/-- C8: `getNumericHash` — which renders the digest as hex and parses it
back with `Buffer.from(·, 'hex')` before reading the four words — computes
exactly the sum of the four little-endian 32-bit words at byte offsets
0, 4, 8, 12 of the 16-byte MD5 digest of the input concatenated with the
salt `"-Phonetic"`; the digest has 16 bytes, and the function is pure, so
equal inputs give equal outputs. -/
theorem getNumericHash_spec (data : String) :
    getNumericHash data = specNumericHash data ∧
      (md5 (strBytes (data ++ "-Phonetic"))).length = 16 ∧
      ∀ data2 : String, data = data2 →
        getNumericHash data = getNumericHash data2 := by
  refine ⟨?_, md5_length _, fun data2 h => h ▸ rfl⟩
  simp only [getNumericHash, specNumericHash]
  rw [hexToBytes_bytesToHex _ (md5_bytes_lt _)]
  simp only [List.foldl_cons, List.foldl_nil]
  omega

/-- C1 (amended): in fragment selection, the numeric state is advanced to
`getNumericHash` of the pre-update numeric value concatenated with the word
as it stands *before* the selected fragment is appended: `getNextPhonetic`
rehashes from the state it receives and leaves the word untouched, and the
caller appends the fragment only afterwards, so the fragment just emitted
is not part of this draw's hash input. -/
theorem getNextPhonetic_hashes_pre_append_word (phoneticSet : List String)
    (simpleCap : Nat) (opts : ResolvedOptions) (st : WordState)
    (forceSimple : Bool) :
    (getNextPhonetic phoneticSet simpleCap opts st forceSimple).2.numeric =
        getNumericHash (toString st.numeric ++ st.word) ∧
      (getNextPhonetic phoneticSet simpleCap opts st forceSimple).2.word =
        st.word :=
  ⟨rfl, rfl⟩

/-- C1 counterexample: at the very first fragment draw of a run seeded with
`"a"`, the advanced numeric state differs from `getNumericHash` of the
pre-update numeric concatenated with the word *after* the fragment is
appended — the hash input does not include the fragment just emitted. -/
theorem getNextPhonetic_hash_not_post_append :
    (getNextPhonetic PHONETIC_PRE PHONETIC_PRE_SIMPLE_LENGTH
        (getOptions "E" { seed := some "a" })
        (initWordState (getOptions "E" { seed := some "a" })) false).2.numeric ≠
      getNumericHash
        (toString (initWordState (getOptions "E" { seed := some "a" })).numeric ++
          ((initWordState (getOptions "E" { seed := some "a" })).word ++
            (getNextPhonetic PHONETIC_PRE PHONETIC_PRE_SIMPLE_LENGTH
              (getOptions "E" { seed := some "a" })
              (initWordState (getOptions "E" { seed := some "a" })) false).1)) := by
  decide

/-- When the simple boundary is positive and no larger than the table,
`getNextPhonetic`'s index is in bounds and its fragment is a table entry. -/
theorem getNextPhonetic_mem (set : List String) (sc : Nat)
    (opts : ResolvedOptions) (st : WordState) (forceSimple : Bool)
    (h0 : 0 < sc) (hle : sc ≤ set.length) :
    nextPhoneticIndex set sc opts st forceSimple < set.length ∧
      (getNextPhonetic set sc opts st forceSimple).1 ∈ set := by
  have hidx : nextPhoneticIndex set sc opts st forceSimple < set.length := by
    simp only [nextPhoneticIndex]
    split
    · exact lt_of_lt_of_le (Nat.mod_lt _ h0) hle
    · exact Nat.mod_lt _ (lt_of_lt_of_le h0 hle)
  refine ⟨hidx, ?_⟩
  show set.getD (nextPhoneticIndex set sc opts st forceSimple) "undefined" ∈ set
  rw [List.getD_eq_getElem _ _ hidx]
  exact List.getElem_mem hidx

/-- C10: for each of the three (table, simple boundary) pairs `addSyllable`
uses, the index `getNextPhonetic` computes is strictly below the table's
length, and the returned fragment is an entry of the table — the
out-of-range (`undefined`) branch is unreachable. -/
theorem nextPhonetic_in_bounds (opts : ResolvedOptions) (st : WordState)
    (forceSimple : Bool) (p : List String × Nat)
    (hp : p ∈ [(PHONETIC_PRE, PHONETIC_PRE_SIMPLE_LENGTH),
               (PHONETIC_MID, PHONETIC_MID_SIMPLE_LENGTH),
               (PHONETIC_POST, PHONETIC_POST_SIMPLE_LENGTH)]) :
    nextPhoneticIndex p.1 p.2 opts st forceSimple < p.1.length ∧
      (getNextPhonetic p.1 p.2 opts st forceSimple).1 ∈ p.1 := by
  simp only [List.mem_cons, List.not_mem_nil, or_false] at hp
  rcases hp with rfl | rfl | rfl
  · exact getNextPhonetic_mem _ _ opts st forceSimple (by decide) (by decide)
  · exact getNextPhonetic_mem _ _ opts st forceSimple (by decide) (by decide)
  · exact getNextPhonetic_mem _ _ opts st forceSimple (by decide) (by decide)

/-- C10 witness: the bound and membership at a concrete state — the
initial state of a run seeded with `"w"` — for the PRE table. -/
theorem nextPhonetic_in_bounds_witness :
    nextPhoneticIndex PHONETIC_PRE PHONETIC_PRE_SIMPLE_LENGTH
        (getOptions "E" { seed := some "w" })
        (initWordState (getOptions "E" { seed := some "w" })) false <
      PHONETIC_PRE.length ∧
      (getNextPhonetic PHONETIC_PRE PHONETIC_PRE_SIMPLE_LENGTH
        (getOptions "E" { seed := some "w" })
        (initWordState (getOptions "E" { seed := some "w" })) false).1 ∈
        PHONETIC_PRE :=
  nextPhonetic_in_bounds (getOptions "E" { seed := some "w" })
    (initWordState (getOptions "E" { seed := some "w" })) false
    (PHONETIC_PRE, PHONETIC_PRE_SIMPLE_LENGTH) (by decide)

/-- C5 counterexample: a provided simplicity value of `0` is falsy, so
option resolution replaces it with the default `5` rather than clamping it
to `max 0 1 = 1` — for both `phoneticSimplicity` and `compoundSimplicity`. -/
theorem simplicity_zero_not_clamped :
    (getOptions "E" { phoneticSimplicity := some 0, compoundSimplicity := some 0 }).phoneticSimplicity ≠
        max 0 1 ∧
      (getOptions "E" { phoneticSimplicity := some 0, compoundSimplicity := some 0 }).compoundSimplicity ≠
        max 0 1 := by
  decide

/-- C5 (amended): for every provided *non-zero* integer `v`, option
resolution clamps `phoneticSimplicity` and `compoundSimplicity` to
`max v 1` (a provided `0` is falsy and resolves to the default `5`
instead); and `generate` reads the overrides only through `getOptions`, so
the resolved options drive the whole run. -/
theorem getOptions_clamps_nonzero (e : String) (o : PhoneticOptions)
    (v : Int) :
    (o.phoneticSimplicity = some v → v ≠ 0 →
        (getOptions e o).phoneticSimplicity = max v 1) ∧
      (o.compoundSimplicity = some v → v ≠ 0 →
        (getOptions e o).compoundSimplicity = max v 1) ∧
      ∀ o2 : PhoneticOptions, getOptions e o = getOptions e o2 →
        generate e o = generate e o2 := by
  refine ⟨?_, ?_, ?_⟩
  · intro h hv
    simp [getOptions, h, hv]
  · intro h hv
    simp [getOptions, h, hv]
  · intro o2 h
    simp only [generate]
    rw [h]

/-- C5 witness: negative overrides are clamped to 1-bounded values at
concrete inputs. -/
theorem getOptions_clamps_nonzero_witness :
    (getOptions "E" { phoneticSimplicity := some (-3) }).phoneticSimplicity =
        max (-3) 1 ∧
      (getOptions "E" { compoundSimplicity := some (-7) }).compoundSimplicity =
        max (-7) 1 :=
  ⟨(getOptions_clamps_nonzero "E" { phoneticSimplicity := some (-3) }
      (-3)).1 rfl (by decide),
    (getOptions_clamps_nonzero "E" { compoundSimplicity := some (-7) }
      (-7)).2.1 rfl (by decide)⟩

/-- The syllable loop never terminates once its counter is negative: no
amount of fuel reaches the falsy counter `0`. -/
theorem genLoop_neg_none (opts : ResolvedOptions) :
    ∀ (fuel : Nat) (s : Int) (st : WordState), s < 0 →
      genLoop opts fuel s st = none := by
  intro fuel
  induction fuel with
  | zero =>
    intro s st hs
    rw [genLoop, if_neg (by omega)]
  | succ n ih =>
    intro s st hs
    rw [genLoop, if_neg (by omega)]
    exact ih (s - 1) _ (by omega)

/-- C4: with a negative `syllables` value — here `-1`, with seed `"a"` —
the syllable loop `while (syllables--)` never terminates: for every fuel
the loop is still running, so `generate` never returns. -/
theorem generate_neg_syllables_diverges (fuel : Nat) :
    generateWith fuel "E" { seed := some "a", syllables := some (-1) } =
      none := by
  have hneg :
      jsOrInt' (getOptions "E" { seed := some "a", syllables := some (-1) }).syllables 3 < 0 := by
    decide
  simp only [generateWith, generateResolved]
  rw [genLoop_neg_none _ fuel _ _ hneg]
  rfl

/-- C2 counterexample: the empty string is a falsy seed, so an explicit
`seed: ""` falls through to the externally sourced random seed, and two
calls with identical options can return different words. -/
theorem empty_seed_not_deterministic :
    generate "E" { seed := some "", syllables := some 1, capFirst := some false } ≠
      generate "F" { seed := some "", syllables := some 1, capFirst := some false } := by
  decide

/-- C2 (amended): for every options object with an explicit *non-empty*
seed string, `generate` is independent of the external entropy source, so
two calls with identical options return identical output strings. -/
theorem generate_deterministic (o : PhoneticOptions) (s e1 e2 : String)
    (hs : o.seed = some s) (hne : s ≠ "") :
    generate e1 o = generate e2 o := by
  have key : getOptions e1 o = getOptions e2 o := by
    simp [getOptions, hs, hne]
  simp only [generate]
  rw [key]

/-- C2 witness: two runs with seed `"w"` under different entropy agree. -/
theorem generate_deterministic_witness :
    generate "x" { seed := some "w" } = generate "y" { seed := some "w" } :=
  generate_deterministic { seed := some "w" } "w" "x" "y" rfl (by decide)

/-- C3 counterexample: `generate({ syllables: 0, capFirst: false })` (with
seed `"s"`) is not the empty string — `0` is falsy, so option resolution
replaces it with the default `3` and three syllables are emitted. -/
theorem syllables_zero_not_empty :
    generate "E" { syllables := some 0, seed := some "s", capFirst := some false } ≠
      some "" := by
  decide

/-- C3 (amended): a provided `syllables` value of `0` is falsy and resolves
to the default `3`, so `generate` behaves exactly as if `syllables` had
been omitted (and in particular returns a non-empty three-syllable word,
not the empty string). -/
theorem syllables_zero_resolves_to_default (e : String)
    (o : PhoneticOptions) (h : o.syllables = some 0) :
    generate e o = generate e { o with syllables := none } := by
  have key : getOptions e o = getOptions e { o with syllables := none } := by
    simp [getOptions, jsOrInt, h]
  simp only [generate]
  rw [key]

/-- C3 witness: a zero syllable count at a concrete seed equals the
default run. -/
theorem syllables_zero_resolves_to_default_witness :
    generate "E" { syllables := some 0, seed := some "s" } =
      generate "E" { seed := some "s" } :=
  syllables_zero_resolves_to_default "E"
    { syllables := some 0, seed := some "s" } rfl

/-- C6: `postProcess` applies exactly the eight pattern-to-replacement
rewrites of the replacement table — `quu` to `que`, then the `qu` double
vowel collapse, `[iu]y` to `ey`, `eye` to `ye`, the trailing `(.)ye`
contraction, the `(^|e)cie` swap, the trailing `v`/`z` extension and
`[iu]w` to `ow` — in that fixed order, each rewriting only the first
match, and afterwards uppercases the first character iff `capFirst` is
set. -/
theorem postProcess_replacements (opts : ResolvedOptions) (w : String) :
    postProcess opts w =
      (if opts.capFirst then
        capFirstStr (String.mk (replIUw (replVZEnd (replCie (replYeEnd
          (replEye (replIUy (replQuVowels (replQuu w.data)))))))))
      else
        String.mk (replIUw (replVZEnd (replCie (replYeEnd (replEye
          (replIUy (replQuVowels (replQuu w.data))))))))) := by
  simp only [postProcess, REPLACEMENTS, List.foldl_cons, List.foldl_nil]

/-! ## Capitalization is a pure post-processing step -/

/-- `addSyllable` never reads `capFirst`, so flipping it leaves each
syllable step unchanged. -/
theorem addSyllable_capFirst (opts : ResolvedOptions) (b : Bool)
    (st : WordState) :
    addSyllable { opts with capFirst := b } st = addSyllable opts st := rfl

/-- The syllable loop never reads `capFirst`. -/
theorem genLoop_capFirst (opts : ResolvedOptions) (b : Bool) :
    ∀ (fuel : Nat) (s : Int) (st : WordState),
      genLoop { opts with capFirst := b } fuel s st =
        genLoop opts fuel s st := by
  intro fuel
  induction fuel with
  | zero => intro s st; rfl
  | succ n ih =>
    intro s st
    rw [genLoop, genLoop]
    by_cases h : s = 0
    · rw [if_pos h, if_pos h]
    · rw [if_neg h, if_neg h, addSyllable_capFirst]
      exact ih _ _

/-- `generateResolved` with `capFirst` set is `generateResolved` with it
clear, post-composed with first-character capitalization. -/
theorem generateResolved_capFirst (fuel : Nat) (opts : ResolvedOptions) :
    generateResolved fuel { opts with capFirst := true } =
      (generateResolved fuel { opts with capFirst := false }).map
        capFirstStr := by
  simp only [generateResolved]
  rw [genLoop_capFirst opts true, genLoop_capFirst opts false, Option.map_map]
  rfl

/-- C7: for every options object with an explicit seed, the word `generate`
returns with `capFirst` true is the word it returns with `capFirst` false
with its first character uppercased and the remaining characters unchanged
(`capFirstStr` rewrites exactly the head character). -/
theorem generate_capFirst_contract (e : String) (o : PhoneticOptions)
    (s : String) (_hs : o.seed = some s) :
    generate e { o with capFirst := some true } =
      (generate e { o with capFirst := some false }).map capFirstStr := by
  have hT : getOptions e { o with capFirst := some true } =
      { getOptions e o with capFirst := true } := rfl
  have hF : getOptions e { o with capFirst := some false } =
      { getOptions e o with capFirst := false } := rfl
  simp only [generate, hT, hF]
  exact generateResolved_capFirst _ _

/-- C7 witness: the contract at seed `"test"`. -/
theorem generate_capFirst_contract_witness :
    generate "E" { seed := some "test", capFirst := some true } =
      (generate "E" { seed := some "test", capFirst := some false }).map
        capFirstStr :=
  generate_capFirst_contract "E" { seed := some "test" } "test" rfl

/-! ## C9: the raw word is a concatenation of table fragments -/

/-- Each syllable step preserves the fragment-concatenation invariant: it
only ever appends fragments drawn from the three tables. -/
theorem addSyllable_concat (opts : ResolvedOptions) (st : WordState)
    (h : FragConcat st.word) : FragConcat (addSyllable opts st).word := by
  have hpre := (getNextPhonetic_mem PHONETIC_PRE PHONETIC_PRE_SIMPLE_LENGTH
    opts st false (by decide) (by decide)).2
  unfold addSyllable
  dsimp only
  split
  · split
    · exact FragConcat.snoc _ _
        (FragConcat.snoc _ _ (FragConcat.snoc _ _ h (Or.inl hpre))
          (Or.inr (Or.inl (getNextPhonetic_mem _ _ _ _ _ (by decide)
            (by decide)).2)))
        (Or.inr (Or.inr (getNextPhonetic_mem _ _ _ _ _ (by decide)
          (by decide)).2))
    · exact FragConcat.snoc _ _ (FragConcat.snoc _ _ h (Or.inl hpre))
        (Or.inr (Or.inl (getNextPhonetic_mem _ _ _ _ _ (by decide)
          (by decide)).2))
  · split
    · exact FragConcat.snoc _ _
        (FragConcat.snoc _ _ h
          (Or.inr (Or.inl (getNextPhonetic_mem _ _ _ _ _ (by decide)
            (by decide)).2)))
        (Or.inr (Or.inr (getNextPhonetic_mem _ _ _ _ _ (by decide)
          (by decide)).2))
    · exact FragConcat.snoc _ _ h
        (Or.inr (Or.inl (getNextPhonetic_mem _ _ _ _ _ (by decide)
          (by decide)).2))

/-- The syllable loop preserves the fragment-concatenation invariant. -/
theorem genLoop_concat (opts : ResolvedOptions) :
    ∀ (fuel : Nat) (s : Int) (st st' : WordState),
      genLoop opts fuel s st = some st' → FragConcat st.word →
      FragConcat st'.word := by
  intro fuel
  induction fuel with
  | zero =>
    intro s st st' hg h
    rw [genLoop] at hg
    by_cases hs : s = 0
    · rw [if_pos hs] at hg
      injection hg with h'
      exact h' ▸ h
    · rw [if_neg hs] at hg
      exact absurd hg (by simp)
  | succ n ih =>
    intro s st st' hg h
    rw [genLoop] at hg
    by_cases hs : s = 0
    · rw [if_pos hs] at hg
      injection hg with h'
      exact h' ▸ h
    · rw [if_neg hs] at hg
      exact ih _ _ _ hg (addSyllable_concat _ _ h)

/-- C9: every `addSyllable` invocation preserves the invariant that the
accumulating word is a concatenation of entries drawn verbatim from the
PRE, MID and POST tables; consequently, for every options object with an
explicit seed, the raw word of a `generate` run — as it stands before
post-processing — is such a concatenation. -/
theorem raw_word_frag_concat :
    (∀ (opts : ResolvedOptions) (st : WordState), FragConcat st.word →
        FragConcat (addSyllable opts st).word) ∧
      ∀ (e : String) (o : PhoneticOptions) (s w : String),
        o.seed = some s → rawWord e o = some w → FragConcat w := by
  refine ⟨addSyllable_concat, ?_⟩
  intro e o s w _ hw
  simp only [rawWord, rawWordResolved, Option.map_eq_some'] at hw
  obtain ⟨st', hst', rfl⟩ := hw
  exact genLoop_concat _ _ _ _ _ hst' FragConcat.nil

/-- C9 witness: the raw word of the run seeded with `"test"` is a
table-fragment concatenation. -/
theorem raw_word_frag_concat_witness : FragConcat "modefro" :=
  raw_word_frag_concat.2 "E" { seed := some "test" } "test" "modefro" rfl
    (by decide)
